import Mathlib

/-!
Verification of the address-derivation subsystem of `anchor-ts`
(`src/dist/cjs/utils/pubkey.js`).

The SHA-256 hash (library `js-sha256`) and the elliptic-curve membership
test (`web3.PublicKey.isOnCurve`) are external collaborators of the code
under verification; following the spec's design note ("treat it as an
injected pure predicate"), both are passed to every definition as explicit
function parameters over byte lists.  Bytes are modelled as `Nat`; byte
strings as `List Nat`.
-/

namespace AnchorTs

/-- `MAX_SEED_LENGTH` constant of `createProgramAddressSync`. -/
def MAX_SEED_LENGTH : Nat := 32

/-- The domain constant `Buffer.from("ProgramDerivedAddress")` appended to
every derivation preimage (ASCII bytes of the literal). -/
def programDerivedAddressBytes : List Nat :=
  "ProgramDerivedAddress".data.map Char.toNat

/-- The failure outcomes of the derivation code.  `InvalidSeedLength` is the
`TypeError("Max seed length exceeded")`, `InvalidSeeds` is the
`Error("Invalid seeds, address must fall off the curve")`, and
`NonceSearchExhausted` is the
`Error("Unable to find a viable program address nonce")`. -/
inductive PubkeyError where
  | InvalidSeedLength
  | InvalidSeeds
  | NonceSearchExhausted
deriving DecidableEq, Repr

/-- Big-endian byte list read as a natural number: the value denoted by the
hex digest string that `new BN(hash, 16)` parses. -/
def bytesToNatBE (bs : List Nat) : Nat :=
  bs.foldl (fun acc b => acc * 256 + b) 0

/-- `BN.toArray(undefined, k)`: the `k`-byte big-endian representation of a
number (most significant byte first, zero padded on the left). -/
def natToBytesBE : Nat → Nat → List Nat
  | 0, _ => []
  | k + 1, n => natToBytesBE k (n / 256) ++ [n % 256]

/-- A hash function parameter behaves like the `js-sha256` digest: every
output is exactly 32 bytes, each below 256. -/
def IsDigest32 (sha256 : List Nat → List Nat) : Prop :=
  ∀ b : List Nat, (sha256 b).length = 32 ∧ ∀ x ∈ sha256 b, x < 256

/-- The `seeds.forEach` loop of `createProgramAddressSync`: validate each
seed's length against `MAX_SEED_LENGTH` (throwing the `TypeError` on
violation) while concatenating the seeds in order into one buffer. -/
def concatSeeds : List (List Nat) → Except PubkeyError (List Nat)
  | [] => Except.ok []
  | seed :: rest =>
    if seed.length > MAX_SEED_LENGTH then
      Except.error PubkeyError.InvalidSeedLength
    else
      match concatSeeds rest with
      | Except.error e => Except.error e
      | Except.ok tail => Except.ok (seed ++ tail)

/-- `createProgramAddressSync(seeds, programId)`: concatenate the validated
seeds, the program id bytes and the domain constant, hash, reinterpret the
digest through the `BN` round trip, and reject on-curve candidates. -/
def createProgramAddressSync (sha256 : List Nat → List Nat)
    (isOnCurve : List Nat → Bool) (seeds : List (List Nat))
    (programId : List Nat) : Except PubkeyError (List Nat) :=
  match concatSeeds seeds with
  | Except.error e => Except.error e
  | Except.ok seedBuf =>
    let buffer := seedBuf ++ programId ++ programDerivedAddressBytes
    let hash := sha256 buffer
    let publicKeyBytes := natToBytesBE 32 (bytesToNatBE hash)
    if isOnCurve publicKeyBytes then
      Except.error PubkeyError.InvalidSeeds
    else
      Except.ok publicKeyBytes

/-- The `while (nonce != 0)` loop of `findProgramAddressSync`, indexed by the
current nonce value: try `seeds.concat(Buffer.from([nonce]))`; rethrow a
`TypeError` (`InvalidSeedLength`) immediately; on any other error decrement
and continue; on success return the address with the current nonce;
at nonce `0` fail with `NonceSearchExhausted`. -/
def findLoop (sha256 : List Nat → List Nat) (isOnCurve : List Nat → Bool)
    (seeds : List (List Nat)) (programId : List Nat) :
    Nat → Except PubkeyError (List Nat × Nat)
  | 0 => Except.error PubkeyError.NonceSearchExhausted
  | n + 1 =>
    match createProgramAddressSync sha256 isOnCurve (seeds ++ [[n + 1]])
        programId with
    | Except.ok address => Except.ok (address, n + 1)
    | Except.error PubkeyError.InvalidSeedLength =>
      Except.error PubkeyError.InvalidSeedLength
    | Except.error _ => findLoop sha256 isOnCurve seeds programId n

/-- `findProgramAddressSync(seeds, programId)`: run the nonce search starting
from `255`. -/
def findProgramAddressSync (sha256 : List Nat → List Nat)
    (isOnCurve : List Nat → Bool) (seeds : List (List Nat))
    (programId : List Nat) : Except PubkeyError (List Nat × Nat) :=
  findLoop sha256 isOnCurve seeds programId 255

/-- The list of nonce values actually handed to `createProgramAddressSync`
by `findLoop` when started at the given nonce (ghost instrumentation that
mirrors `findLoop` case for case). -/
def attemptedNonces (sha256 : List Nat → List Nat)
    (isOnCurve : List Nat → Bool) (seeds : List (List Nat))
    (programId : List Nat) : Nat → List Nat
  | 0 => []
  | n + 1 =>
    (n + 1) ::
      match createProgramAddressSync sha256 isOnCurve (seeds ++ [[n + 1]])
          programId with
      | Except.ok _ => []
      | Except.error PubkeyError.InvalidSeedLength => []
      | Except.error _ => attemptedNonces sha256 isOnCurve seeds programId n

/-- `createWithSeedSync(fromPublicKey, seed, programId)`: hash of the
concatenation `fromPublicKey.toBuffer() || seed || programId.toBuffer()`,
with no validation and no curve check. -/
def createWithSeedSync (sha256 : List Nat → List Nat)
    (fromPublicKey : List Nat) (seed : List Nat) (programId : List Nat) :
    List Nat :=
  let buffer := fromPublicKey ++ seed ++ programId
  sha256 buffer

/-- `Buffer.from([97, 110, 99, 104, 111, 114])`, the `b"anchor"` namespace
tag prefixed to every associated-address seed list. -/
def anchorSeed : List Nat := [97, 110, 99, 104, 111, 114]

/-- An argument of `associated`: either a `Buffer` instance (raw bytes,
passed through unchanged) or any other address-like value, which is
resolved through `translateAddress`. -/
inductive AssocArg (α : Type) where
  | bytes (b : List Nat)
  | addressLike (a : α)

/-- The byte form `arg instanceof Buffer ? arg :
translateAddress(arg).toBuffer()` of one `associated` argument.
`translateAddress` lives in `program/common.js`, outside the verified
sources; per the spec it is a pure map from address-like values to
canonical 32-byte form, passed here as the parameter `translate`. -/
def assocArgBytes (translate : α → List Nat) : AssocArg α → List Nat
  | AssocArg.bytes b => b
  | AssocArg.addressLike a => translate a

/-- `associated(programId, ...args)`.  Modelled from the spec: the delegate
`web3.PublicKey.findProgramAddress` is the asynchronous form of the
`FindProgramAddress` operation of spec §4.1, modelled by
`findProgramAddressSync`; the `translateAddress` collaborator is the
`translate` parameter.  The seed list starts from `[b"anchor"]` and each
argument's bytes are pushed in order; only the address of the resulting
pair is returned, the nonce is discarded. -/
def associated (sha256 : List Nat → List Nat) (isOnCurve : List Nat → Bool)
    (translate : α → List Nat) (programId : α) (args : List (AssocArg α)) :
    Except PubkeyError (List Nat) :=
  let seeds := args.foldl
    (fun acc arg => acc ++ [assocArgBytes translate arg]) [anchorSeed]
  match findProgramAddressSync sha256 isOnCurve seeds
      (translate programId) with
  | Except.error e => Except.error e
  | Except.ok pair => Except.ok pair.1

end AnchorTs

namespace AnchorTs

/-! ### Helper lemmas -/

theorem concatSeeds_ok (seeds : List (List Nat))
    (h : ∀ s ∈ seeds, s.length ≤ MAX_SEED_LENGTH) :
    concatSeeds seeds = Except.ok seeds.flatten := by
  induction seeds with
  | nil => rfl
  | cons s rest ih =>
    have hs : ¬ s.length > MAX_SEED_LENGTH := by
      have := h s (List.mem_cons_self s rest)
      omega
    have hrest : ∀ t ∈ rest, t.length ≤ MAX_SEED_LENGTH := by
      intro t ht
      exact h t (List.mem_cons_of_mem s ht)
    simp [concatSeeds, hs, ih hrest, List.flatten]

theorem concatSeeds_err (seeds : List (List Nat))
    (h : ∃ s ∈ seeds, s.length > MAX_SEED_LENGTH) :
    concatSeeds seeds = Except.error PubkeyError.InvalidSeedLength := by
  induction seeds with
  | nil => simp at h
  | cons s rest ih =>
    by_cases hs : s.length > MAX_SEED_LENGTH
    · simp [concatSeeds, hs]
    · rcases h with ⟨t, ht, htl⟩
      rcases List.mem_cons.mp ht with rfl | htr
      · omega
      · have := ih ⟨t, htr, htl⟩
        simp [concatSeeds, hs, this]

theorem bytesToNatBE_append_single (bs : List Nat) (b : Nat) :
    bytesToNatBE (bs ++ [b]) = bytesToNatBE bs * 256 + b := by
  simp [bytesToNatBE, List.foldl_append]

theorem natToBytesBE_roundTrip (bs : List Nat)
    (h : ∀ b ∈ bs, b < 256) :
    natToBytesBE bs.length (bytesToNatBE bs) = bs := by
  induction bs using List.reverseRecOn with
  | nil => rfl
  | append_singleton bs b ih =>
    have hb : b < 256 := h b (by simp)
    have hbs : ∀ x ∈ bs, x < 256 := fun x hx => h x (by simp [hx])
    have hlen : (bs ++ [b]).length = bs.length + 1 := by simp
    rw [hlen, bytesToNatBE_append_single, natToBytesBE]
    have hdiv : (bytesToNatBE bs * 256 + b) / 256 = bytesToNatBE bs := by
      omega
    have hmod : (bytesToNatBE bs * 256 + b) % 256 = b := by
      omega
    rw [hdiv, hmod, ih hbs]

theorem concatSeeds_error_eq (seeds : List (List Nat)) (e : PubkeyError)
    (h : concatSeeds seeds = Except.error e) :
    e = PubkeyError.InvalidSeedLength := by
  induction seeds with
  | nil => simp [concatSeeds] at h
  | cons s rest ih =>
    by_cases hs : s.length > MAX_SEED_LENGTH
    · simp [concatSeeds, hs] at h
      exact h.symm
    · rw [concatSeeds] at h
      simp [hs] at h
      cases hr : concatSeeds rest with
      | ok tail => rw [hr] at h; simp at h
      | error e2 =>
        rw [hr] at h
        simp at h
        subst h
        exact ih hr

/-- The candidate address: the digest of the full preimage read back through
the `BN` round trip. -/
def candidateBytes (sha256 : List Nat → List Nat) (seeds : List (List Nat))
    (programId : List Nat) : List Nat :=
  natToBytesBE 32 (bytesToNatBE
    (sha256 (seeds.flatten ++ programId ++ programDerivedAddressBytes)))

theorem create_ok_char (sha256 : List Nat → List Nat)
    (isOnCurve : List Nat → Bool) (seeds : List (List Nat))
    (programId : List Nat)
    (h : ∀ s ∈ seeds, s.length ≤ MAX_SEED_LENGTH) :
    createProgramAddressSync sha256 isOnCurve seeds programId =
      if isOnCurve (candidateBytes sha256 seeds programId) then
        Except.error PubkeyError.InvalidSeeds
      else
        Except.ok (candidateBytes sha256 seeds programId) := by
  rw [createProgramAddressSync, concatSeeds_ok seeds h]
  simp [candidateBytes]

theorem create_ok_offCurve (sha256 : List Nat → List Nat)
    (isOnCurve : List Nat → Bool) (seeds : List (List Nat))
    (programId : List Nat) (a : List Nat)
    (h : createProgramAddressSync sha256 isOnCurve seeds programId =
      Except.ok a) :
    isOnCurve a = false := by
  rw [createProgramAddressSync] at h
  cases hc : concatSeeds seeds with
  | error e => rw [hc] at h; simp at h
  | ok buf =>
    rw [hc] at h
    simp at h
    split at h
    · simp at h
    · rename_i hcur
      have ha := Except.ok.inj h
      rw [← ha]
      simpa using hcur

theorem create_cases (sha256 : List Nat → List Nat)
    (isOnCurve : List Nat → Bool) (seeds : List (List Nat))
    (programId : List Nat) :
    (∃ a, createProgramAddressSync sha256 isOnCurve seeds programId =
        Except.ok a ∧ isOnCurve a = false) ∨
    createProgramAddressSync sha256 isOnCurve seeds programId =
      Except.error PubkeyError.InvalidSeedLength ∨
    createProgramAddressSync sha256 isOnCurve seeds programId =
      Except.error PubkeyError.InvalidSeeds := by
  cases hr : createProgramAddressSync sha256 isOnCurve seeds programId with
  | ok a =>
    exact Or.inl ⟨a, rfl, create_ok_offCurve sha256 isOnCurve seeds
      programId a hr⟩
  | error e =>
    rw [createProgramAddressSync] at hr
    cases hc : concatSeeds seeds with
    | error e2 =>
      rw [hc] at hr
      simp at hr
      have := concatSeeds_error_eq seeds e2 hc
      subst this
      rw [← hr]
      exact Or.inr (Or.inl rfl)
    | ok buf =>
      rw [hc] at hr
      simp at hr
      split at hr
      · rw [← Except.error.inj hr]
        exact Or.inr (Or.inr rfl)
      · simp at hr

theorem create_longSeed_err (sha256 : List Nat → List Nat)
    (isOnCurve : List Nat → Bool) (seeds : List (List Nat))
    (programId : List Nat) (h : ∃ s ∈ seeds, MAX_SEED_LENGTH < s.length) :
    createProgramAddressSync sha256 isOnCurve seeds programId =
      Except.error PubkeyError.InvalidSeedLength := by
  rw [createProgramAddressSync, concatSeeds_err seeds]
  rcases h with ⟨s, hs, hl⟩
  exact ⟨s, hs, hl⟩

theorem findLoop_spec (sha256 : List Nat → List Nat)
    (isOnCurve : List Nat → Bool) (seeds : List (List Nat))
    (programId : List Nat) (k : Nat) :
    (∃ a n, findLoop sha256 isOnCurve seeds programId k =
        Except.ok (a, n) ∧ 1 ≤ n ∧ n ≤ k ∧
      createProgramAddressSync sha256 isOnCurve (seeds ++ [[n]])
          programId = Except.ok a ∧
      isOnCurve a = false ∧
      (∀ m, n < m → m ≤ k →
        createProgramAddressSync sha256 isOnCurve (seeds ++ [[m]])
            programId = Except.error PubkeyError.InvalidSeeds)) ∨
    (findLoop sha256 isOnCurve seeds programId k =
        Except.error PubkeyError.NonceSearchExhausted ∧
      ∀ m, 1 ≤ m → m ≤ k →
        createProgramAddressSync sha256 isOnCurve (seeds ++ [[m]])
            programId = Except.error PubkeyError.InvalidSeeds) ∨
    (findLoop sha256 isOnCurve seeds programId k =
        Except.error PubkeyError.InvalidSeedLength ∧
      ∃ m, 1 ≤ m ∧ m ≤ k ∧
        createProgramAddressSync sha256 isOnCurve (seeds ++ [[m]])
            programId = Except.error PubkeyError.InvalidSeedLength) := by
  induction k with
  | zero =>
    refine Or.inr (Or.inl ⟨rfl, ?_⟩)
    intro m h1 h0
    omega
  | succ n ih =>
    rcases create_cases sha256 isOnCurve (seeds ++ [[n + 1]]) programId with
      ⟨a, ha, hoff⟩ | herr | hcurve
    · refine Or.inl ⟨a, n + 1, ?_, by omega, by omega, ha, hoff, ?_⟩
      · simp [findLoop, ha]
      · intro m hm1 hm2
        omega
    · refine Or.inr (Or.inr ⟨?_, n + 1, by omega, by omega, herr⟩)
      simp [findLoop, herr]
    · have hstep : findLoop sha256 isOnCurve seeds programId (n + 1) =
          findLoop sha256 isOnCurve seeds programId n := by
        simp [findLoop, hcurve]
      rcases ih with ⟨a, m0, hfind, h1, h2, hok, hoff, hrest⟩ |
        ⟨hfind, hall⟩ | ⟨hfind, m0, h1, h2, herr2⟩
      · refine Or.inl ⟨a, m0, hstep ▸ hfind, h1, by omega, hok, hoff, ?_⟩
        intro m hm1 hm2
        by_cases hm : m = n + 1
        · subst hm
          exact hcurve
        · exact hrest m hm1 (by omega)
      · refine Or.inr (Or.inl ⟨hstep ▸ hfind, ?_⟩)
        intro m hm1 hm2
        by_cases hm : m = n + 1
        · subst hm
          exact hcurve
        · exact hall m hm1 (by omega)
      · exact Or.inr (Or.inr ⟨hstep ▸ hfind, m0, h1, by omega, herr2⟩)

theorem attemptedNonces_length (sha256 : List Nat → List Nat)
    (isOnCurve : List Nat → Bool) (seeds : List (List Nat))
    (programId : List Nat) (k : Nat) :
    (attemptedNonces sha256 isOnCurve seeds programId k).length ≤ k := by
  induction k with
  | zero => simp [attemptedNonces]
  | succ n ih =>
    rw [attemptedNonces]
    cases hr : createProgramAddressSync sha256 isOnCurve (seeds ++ [[n + 1]])
        programId with
    | ok a => simp
    | error e =>
      cases e with
      | InvalidSeedLength => simp
      | InvalidSeeds => simpa using ih
      | NonceSearchExhausted => simpa using ih

theorem attemptedNonces_mem (sha256 : List Nat → List Nat)
    (isOnCurve : List Nat → Bool) (seeds : List (List Nat))
    (programId : List Nat) (k : Nat) :
    ∀ m ∈ attemptedNonces sha256 isOnCurve seeds programId k,
      1 ≤ m ∧ m ≤ k := by
  induction k with
  | zero => simp [attemptedNonces]
  | succ n ih =>
    intro m hm
    rw [attemptedNonces] at hm
    rcases List.mem_cons.mp hm with rfl | htail
    · omega
    · cases hr : createProgramAddressSync sha256 isOnCurve
          (seeds ++ [[n + 1]]) programId with
      | ok a => rw [hr] at htail; simp at htail
      | error e =>
        cases e with
        | InvalidSeedLength => rw [hr] at htail; simp at htail
        | InvalidSeeds =>
          rw [hr] at htail
          have := ih m htail
          omega
        | NonceSearchExhausted =>
          rw [hr] at htail
          have := ih m htail
          omega

theorem foldl_push_eq_map {β : Type} (f : β → List Nat) (l : List β)
    (acc : List (List Nat)) :
    l.foldl (fun acc arg => acc ++ [f arg]) acc = acc ++ l.map f := by
  induction l generalizing acc with
  | nil => simp
  | cons b rest ih => simp [List.foldl_cons, ih]

theorem concatSeeds_split (pre post : List (List Nat)) (s1 s2 : List Nat)
    (h : (s1 ++ s2).length ≤ MAX_SEED_LENGTH) :
    concatSeeds (pre ++ [s1 ++ s2] ++ post) =
      concatSeeds (pre ++ [s1, s2] ++ post) := by
  induction pre with
  | nil =>
    have h4 : s1.length + s2.length ≤ MAX_SEED_LENGTH := by
      simpa using h
    have c1 : ¬ MAX_SEED_LENGTH < s1.length + s2.length := by omega
    have c2 : ¬ MAX_SEED_LENGTH < s1.length := by omega
    have c3 : ¬ MAX_SEED_LENGTH < s2.length := by omega
    cases hp : concatSeeds post with
    | error e => simp [concatSeeds, hp, c1, c2, c3]
    | ok tail => simp [concatSeeds, hp, c1, c2, c3, List.append_assoc]
  | cons p pre ih =>
    by_cases hp : p.length > MAX_SEED_LENGTH
    · simp [concatSeeds, hp]
    · simp only [List.cons_append, concatSeeds, hp, if_false, List.append_eq]
      rw [ih]

theorem concatSeeds_emptySeed (seeds : List (List Nat)) :
    concatSeeds (seeds ++ [[]]) = concatSeeds seeds := by
  induction seeds with
  | nil => rfl
  | cons s rest ih =>
    by_cases hs : s.length > MAX_SEED_LENGTH
    · simp [concatSeeds, hs]
    · simp only [List.cons_append, concatSeeds, hs, if_false, List.append_eq]
      rw [ih]

theorem create_congr_concat (sha256 : List Nat → List Nat)
    (isOnCurve : List Nat → Bool) (seeds1 seeds2 : List (List Nat))
    (programId : List Nat) (h : concatSeeds seeds1 = concatSeeds seeds2) :
    createProgramAddressSync sha256 isOnCurve seeds1 programId =
      createProgramAddressSync sha256 isOnCurve seeds2 programId := by
  rw [createProgramAddressSync, createProgramAddressSync, h]

theorem create_valid_ne_lenErr (sha256 : List Nat → List Nat)
    (isOnCurve : List Nat → Bool) (seeds : List (List Nat))
    (programId : List Nat)
    (h : ∀ s ∈ seeds, s.length ≤ MAX_SEED_LENGTH) :
    createProgramAddressSync sha256 isOnCurve seeds programId ≠
      Except.error PubkeyError.InvalidSeedLength := by
  rw [create_ok_char sha256 isOnCurve seeds programId h]
  split <;> simp

/-- A constant stand-in for the digest collaborator: always 32 zero bytes. -/
def shaZeros : List Nat → List Nat := fun _ => List.replicate 32 0

/-- A constant stand-in for the digest collaborator: always 32 bytes of 7. -/
def shaSevens : List Nat → List Nat := fun _ => List.replicate 32 7

/-- A curve test declaring every byte string on-curve. -/
def curveAlways : List Nat → Bool := fun _ => true

/-- A curve test declaring every byte string off-curve. -/
def curveNever : List Nat → Bool := fun _ => false

theorem attemptedNonces_getq (sha256 : List Nat → List Nat)
    (isOnCurve : List Nat → Bool) (seeds : List (List Nat))
    (programId : List Nat) (k : Nat) :
    ∀ i, i < (attemptedNonces sha256 isOnCurve seeds programId k).length →
      (attemptedNonces sha256 isOnCurve seeds programId k)[i]? =
        some (k - i) := by
  induction k with
  | zero => intro i hi; simp [attemptedNonces] at hi
  | succ n ih =>
    intro i hi
    rw [attemptedNonces] at hi ⊢
    cases hr : createProgramAddressSync sha256 isOnCurve (seeds ++ [[n + 1]])
        programId with
    | ok a =>
      cases i with
      | zero => simp
      | succ j =>
        rw [hr] at hi
        simp at hi
    | error e =>
      cases e with
      | InvalidSeedLength =>
        cases i with
        | zero => simp
        | succ j =>
          rw [hr] at hi
          simp at hi
      | InvalidSeeds =>
        cases i with
        | zero => simp
        | succ j =>
          rw [hr] at hi
          have hj : j < (attemptedNonces sha256 isOnCurve seeds programId
              n).length := by
            simpa using hi
          have hv := ih j hj
          simpa [Nat.succ_sub_succ] using hv
      | NonceSearchExhausted =>
        cases i with
        | zero => simp
        | succ j =>
          rw [hr] at hi
          have hj : j < (attemptedNonces sha256 isOnCurve seeds programId
              n).length := by
            simpa using hi
          have hv := ih j hj
          simpa [Nat.succ_sub_succ] using hv

/-! ### Claims -/

/-- C1: the derivation engine never returns an on-curve address.  For every
seed list with each seed at most 32 bytes and every program id, if the
candidate digest lies on the signing scheme's curve the call fails with the
`InvalidSeeds` error, and every successfully returned address is
off-curve. -/
theorem claim_C1 (sha256 : List Nat → List Nat)
    (isOnCurve : List Nat → Bool) (seeds : List (List Nat))
    (programId : List Nat) (hlen : ∀ s ∈ seeds, s.length ≤ 32) :
    (isOnCurve (candidateBytes sha256 seeds programId) = true →
      createProgramAddressSync sha256 isOnCurve seeds programId =
        Except.error PubkeyError.InvalidSeeds) ∧
    (∀ a, createProgramAddressSync sha256 isOnCurve seeds programId =
        Except.ok a → isOnCurve a = false) := by
  constructor
  · intro hcur
    rw [create_ok_char sha256 isOnCurve seeds programId hlen, if_pos hcur]
  · intro a ha
    exact create_ok_offCurve sha256 isOnCurve seeds programId a ha

theorem claim_C1_witness :
    createProgramAddressSync shaZeros curveAlways [] [] =
      Except.error PubkeyError.InvalidSeeds :=
  (claim_C1 shaZeros curveAlways [] [] (by simp)).1 rfl

/-- C2: for every seed list with each seed at most 32 bytes,
`findProgramAddressSync` either returns a pair with nonce in `[1, 255]`
whose rederivation succeeds with the same off-curve address, or — when
every nonce yields an on-curve candidate — fails with
`NonceSearchExhausted`. -/
theorem claim_C2 (sha256 : List Nat → List Nat)
    (isOnCurve : List Nat → Bool) (seeds : List (List Nat))
    (programId : List Nat) (hlen : ∀ s ∈ seeds, s.length ≤ 32) :
    (∃ a n, findProgramAddressSync sha256 isOnCurve seeds programId =
        Except.ok (a, n) ∧ 1 ≤ n ∧ n ≤ 255 ∧
      createProgramAddressSync sha256 isOnCurve (seeds ++ [[n]])
          programId = Except.ok a ∧
      isOnCurve a = false) ∨
    (findProgramAddressSync sha256 isOnCurve seeds programId =
        Except.error PubkeyError.NonceSearchExhausted ∧
      ∀ n, 1 ≤ n → n ≤ 255 →
        createProgramAddressSync sha256 isOnCurve (seeds ++ [[n]])
            programId = Except.error PubkeyError.InvalidSeeds) := by
  unfold findProgramAddressSync
  rcases findLoop_spec sha256 isOnCurve seeds programId 255 with
    ⟨a, n, hfind, h1, h2, hok, hoff, _⟩ | ⟨hfind, hall⟩ |
    ⟨hfind, m, hm1, hm2, herr⟩
  · exact Or.inl ⟨a, n, hfind, h1, h2, hok, hoff⟩
  · exact Or.inr ⟨hfind, hall⟩
  · exfalso
    apply create_valid_ne_lenErr sha256 isOnCurve (seeds ++ [[m]])
      programId _ herr
    intro s hs
    rcases List.mem_append.mp hs with hs1 | hs2
    · exact hlen s hs1
    · simp at hs2
      subst hs2
      simp [MAX_SEED_LENGTH]

theorem claim_C2_witness :
    (∃ a n, findProgramAddressSync shaZeros curveNever [] [] =
        Except.ok (a, n) ∧ 1 ≤ n ∧ n ≤ 255 ∧
      createProgramAddressSync shaZeros curveNever ([] ++ [[n]]) [] =
        Except.ok a ∧
      curveNever a = false) ∨
    (findProgramAddressSync shaZeros curveNever [] [] =
        Except.error PubkeyError.NonceSearchExhausted ∧
      ∀ n, 1 ≤ n → n ≤ 255 →
        createProgramAddressSync shaZeros curveNever ([] ++ [[n]]) [] =
          Except.error PubkeyError.InvalidSeeds) :=
  claim_C2 shaZeros curveNever [] [] (by simp)

/-- C3: a successfully derived address is exactly the digest of
`seed_1 || ... || seed_n || programId || "ProgramDerivedAddress"`, the
seeds concatenated in list order. -/
theorem claim_C3 (sha256 : List Nat → List Nat)
    (isOnCurve : List Nat → Bool) (seeds : List (List Nat))
    (programId : List Nat) (a : List Nat) (hdig : IsDigest32 sha256)
    (hlen : ∀ s ∈ seeds, s.length ≤ 32)
    (h : createProgramAddressSync sha256 isOnCurve seeds programId =
      Except.ok a) :
    a = sha256 (seeds.flatten ++ programId ++
      programDerivedAddressBytes) := by
  rw [create_ok_char sha256 isOnCurve seeds programId hlen] at h
  split at h
  · simp at h
  · have hc := Except.ok.inj h
    rw [← hc]
    unfold candidateBytes
    have hd := hdig (seeds.flatten ++ programId ++
      programDerivedAddressBytes)
    rw [← hd.1]
    exact natToBytesBE_roundTrip _ hd.2

theorem claim_C3_witness :
    List.replicate 32 7 = shaSevens (List.flatten [] ++
      List.replicate 32 0 ++ programDerivedAddressBytes) :=
  claim_C3 shaSevens curveNever [] (List.replicate 32 0)
    (List.replicate 32 7)
    (by
      intro b
      refine ⟨by simp [shaSevens], ?_⟩
      intro x hx
      simp [shaSevens] at hx
      omega)
    (by simp) (by rfl)

/-- C4: any seed list containing a seed longer than 32 bytes makes
`createProgramAddressSync` fail with the `InvalidSeedLength` error, for
every hash function and every curve test — the length error wins even when
the candidate would be on-curve. -/
theorem claim_C4 (sha256 : List Nat → List Nat)
    (isOnCurve : List Nat → Bool) (seeds : List (List Nat))
    (programId : List Nat) (h : ∃ s ∈ seeds, 32 < s.length) :
    createProgramAddressSync sha256 isOnCurve seeds programId =
      Except.error PubkeyError.InvalidSeedLength :=
  create_longSeed_err sha256 isOnCurve seeds programId h

theorem claim_C4_witness :
    createProgramAddressSync shaZeros curveAlways [List.replicate 33 0]
      [] = Except.error PubkeyError.InvalidSeedLength :=
  claim_C4 shaZeros curveAlways [List.replicate 33 0] []
    ⟨List.replicate 33 0, by simp, by simp⟩

/-- C5: an `InvalidSeedLength` failure is propagated immediately by the
nonce search: if any caller-supplied seed exceeds 32 bytes,
`findProgramAddressSync` fails with `InvalidSeedLength` instead of
decrementing the nonce and continuing. -/
theorem claim_C5 (sha256 : List Nat → List Nat)
    (isOnCurve : List Nat → Bool) (seeds : List (List Nat))
    (programId : List Nat) (h : ∃ s ∈ seeds, 32 < s.length) :
    findProgramAddressSync sha256 isOnCurve seeds programId =
      Except.error PubkeyError.InvalidSeedLength := by
  unfold findProgramAddressSync
  have h255 : createProgramAddressSync sha256 isOnCurve (seeds ++ [[255]])
      programId = Except.error PubkeyError.InvalidSeedLength := by
    apply create_longSeed_err
    rcases h with ⟨s, hs, hl⟩
    exact ⟨s, List.mem_append.mpr (Or.inl hs), hl⟩
  have hfuel : findLoop sha256 isOnCurve seeds programId (254 + 1) =
      Except.error PubkeyError.InvalidSeedLength := by
    rw [findLoop]
    simp only [Nat.reduceAdd] at h255 ⊢
    rw [h255]
  exact hfuel

theorem claim_C5_witness :
    findProgramAddressSync shaZeros curveAlways [List.replicate 33 0] [] =
      Except.error PubkeyError.InvalidSeedLength :=
  claim_C5 shaZeros curveAlways [List.replicate 33 0] []
    ⟨List.replicate 33 0, by simp, by simp⟩

/-- C6: both operations are deterministic — identical inputs yield an
identical address, respectively an identical (address, nonce) pair. -/
theorem claim_C6 (sha256 : List Nat → List Nat)
    (isOnCurve : List Nat → Bool) (seeds1 seeds2 : List (List Nat))
    (pid1 pid2 : List Nat) (hs : seeds1 = seeds2) (hp : pid1 = pid2) :
    createProgramAddressSync sha256 isOnCurve seeds1 pid1 =
      createProgramAddressSync sha256 isOnCurve seeds2 pid2 ∧
    findProgramAddressSync sha256 isOnCurve seeds1 pid1 =
      findProgramAddressSync sha256 isOnCurve seeds2 pid2 := by
  subst hs
  subst hp
  exact ⟨rfl, rfl⟩

theorem claim_C6_witness :
    createProgramAddressSync shaZeros curveNever [[1]] [] =
      createProgramAddressSync shaZeros curveNever [[1]] [] ∧
    findProgramAddressSync shaZeros curveNever [[1]] [] =
      findProgramAddressSync shaZeros curveNever [[1]] [] :=
  claim_C6 shaZeros curveNever [[1]] [[1]] [] [] rfl rfl

/-- C7: `associated` builds a seed list headed by the six bytes
`[97, 110, 99, 104, 111, 114]` (`"anchor"`), followed by each extra
component's raw bytes (raw bytes pass through, other components go through
the address-translation collaborator), delegates to the nonce search with
that seed list and the translated program id, and returns only the
address, discarding the nonce. -/
theorem claim_C7 {α : Type} (sha256 : List Nat → List Nat)
    (isOnCurve : List Nat → Bool) (translate : α → List Nat)
    (programId : α) (args : List (AssocArg α)) :
    associated sha256 isOnCurve translate programId args =
      Except.map Prod.fst
        (findProgramAddressSync sha256 isOnCurve
          ([97, 110, 99, 104, 111, 114] ::
            args.map (assocArgBytes translate))
          (translate programId)) ∧
    (∀ b : List Nat, assocArgBytes translate (AssocArg.bytes b) = b) ∧
    (∀ x : α, assocArgBytes translate (AssocArg.addressLike x) =
      translate x) := by
  refine ⟨?_, fun b => rfl, fun x => rfl⟩
  unfold associated
  rw [foldl_push_eq_map]
  have hseeds : [anchorSeed] ++ args.map (assocArgBytes translate) =
      [97, 110, 99, 104, 111, 114] ::
        args.map (assocArgBytes translate) := by
    simp [anchorSeed]
  rw [hseeds]
  cases hfind : findProgramAddressSync sha256 isOnCurve
      ([97, 110, 99, 104, 111, 114] :: args.map (assocArgBytes translate))
      (translate programId) with
  | error e => simp [hfind, Except.map]
  | ok pair => simp [hfind, Except.map]

/-- C8: the nonce search makes at most 255 derivation attempts, the
attempted nonce values run from 255 downward (the value attempted at
position `i` is `255 - i`), every attempted value lies in `[1, 255]` so
nonce `0` is never a candidate, and the returned nonce is the first match:
its rederivation succeeds and every larger nonce up to 255 failed
on-curve. -/
theorem claim_C8 (sha256 : List Nat → List Nat)
    (isOnCurve : List Nat → Bool) (seeds : List (List Nat))
    (programId : List Nat) :
    (attemptedNonces sha256 isOnCurve seeds programId 255).length ≤ 255 ∧
    (∀ m ∈ attemptedNonces sha256 isOnCurve seeds programId 255,
      1 ≤ m ∧ m ≤ 255) ∧
    (∀ i, i <
        (attemptedNonces sha256 isOnCurve seeds programId 255).length →
      (attemptedNonces sha256 isOnCurve seeds programId 255)[i]? =
        some (255 - i)) ∧
    (∀ a n, findProgramAddressSync sha256 isOnCurve seeds programId =
        Except.ok (a, n) →
      createProgramAddressSync sha256 isOnCurve (seeds ++ [[n]])
          programId = Except.ok a ∧
      ∀ m, n < m → m ≤ 255 →
        createProgramAddressSync sha256 isOnCurve (seeds ++ [[m]])
            programId = Except.error PubkeyError.InvalidSeeds) := by
  refine ⟨attemptedNonces_length sha256 isOnCurve seeds programId 255,
    attemptedNonces_mem sha256 isOnCurve seeds programId 255,
    attemptedNonces_getq sha256 isOnCurve seeds programId 255, ?_⟩
  intro a n hfind
  unfold findProgramAddressSync at hfind
  rcases findLoop_spec sha256 isOnCurve seeds programId 255 with
    ⟨a2, n2, hfind2, h1, h2, hok, hoff, hrest⟩ | ⟨hfind2, _⟩ |
    ⟨hfind2, _⟩
  · rw [hfind] at hfind2
    have hpair := Except.ok.inj hfind2
    have ha : a = a2 := congrArg Prod.fst hpair
    have hn : n = n2 := congrArg Prod.snd hpair
    subst ha
    subst hn
    exact ⟨hok, hrest⟩
  · rw [hfind] at hfind2
    simp at hfind2
  · rw [hfind] at hfind2
    simp at hfind2

theorem claim_C8_witness :
    createProgramAddressSync shaZeros curveNever ([] ++ [[255]]) [] =
      Except.ok (List.replicate 32 0) :=
  ((claim_C8 shaZeros curveNever [] []).2.2.2 (List.replicate 32 0) 255
    (by rfl)).1

/-- C9: `createWithSeedSync` returns the digest of
`fromPublicKey || seed || programId`; it performs no seed-length
validation (the equation holds even for a seed longer than 32 bytes),
appends no domain constant, and performs no curve check (it returns its
result even when the curve test holds of it), so it never fails. -/
theorem claim_C9 (sha256 : List Nat → List Nat)
    (fromPublicKey seed programId : List Nat) :
    createWithSeedSync sha256 fromPublicKey seed programId =
      sha256 (fromPublicKey ++ seed ++ programId) ∧
    (32 < seed.length →
      createWithSeedSync sha256 fromPublicKey seed programId =
        sha256 (fromPublicKey ++ seed ++ programId)) ∧
    (∀ isOnCurve : List Nat → Bool,
      isOnCurve (createWithSeedSync sha256 fromPublicKey seed programId) =
        true →
      createWithSeedSync sha256 fromPublicKey seed programId =
        sha256 (fromPublicKey ++ seed ++ programId)) :=
  ⟨rfl, fun _ => rfl, fun _ _ => rfl⟩

theorem claim_C9_witness :
    createWithSeedSync shaZeros (List.replicate 32 1)
      (List.replicate 33 2) (List.replicate 32 3) =
      shaZeros (List.replicate 32 1 ++ List.replicate 33 2 ++
        List.replicate 32 3) :=
  (claim_C9 shaZeros (List.replicate 32 1) (List.replicate 33 2)
    (List.replicate 32 3)).2.1 (by simp)

/-- C10: the preimage encodes no seed-list boundaries: splitting a seed of
length at most 32 into two adjacent seeds leaves the outcome unchanged,
and appending an empty seed to any seed list leaves the outcome
unchanged. -/
theorem claim_C10 (sha256 : List Nat → List Nat)
    (isOnCurve : List Nat → Bool) (pre post : List (List Nat))
    (s1 s2 : List Nat) (programId : List Nat)
    (h : (s1 ++ s2).length ≤ 32) :
    createProgramAddressSync sha256 isOnCurve (pre ++ [s1 ++ s2] ++ post)
        programId =
      createProgramAddressSync sha256 isOnCurve (pre ++ [s1, s2] ++ post)
        programId ∧
    (∀ seeds : List (List Nat),
      createProgramAddressSync sha256 isOnCurve (seeds ++ [[]])
          programId =
        createProgramAddressSync sha256 isOnCurve seeds programId) := by
  constructor
  · exact create_congr_concat sha256 isOnCurve _ _ programId
      (concatSeeds_split pre post s1 s2 h)
  · intro seeds
    exact create_congr_concat sha256 isOnCurve _ _ programId
      (concatSeeds_emptySeed seeds)

theorem claim_C10_witness :
    createProgramAddressSync shaZeros curveNever ([] ++ [[1] ++ [2]] ++
        []) [] =
      createProgramAddressSync shaZeros curveNever ([] ++ [[1], [2]] ++
        []) [] :=
  (claim_C10 shaZeros curveNever [] [] [1] [2] [] (by simp)).1
